import Mathlib

/-!
Verification of the type-picker core: a shallow embedding of the
query-resolution and fact-aggregation engine (`src/picker.ts`, with the
output filters of `src/cli.ts`), together with theorems settling the
specification's claims about it.

Text-like values (file contents, patterns, messages, matched text) are
modelled as `List Char`; opaque rendered labels (type strings, kind
labels, flag names) as `String`.  The external type-system oracle's
offset/line mapping is modelled concretely with LF line breaks; the
regular-expression engine is modelled for literal patterns, with the
exec/lastIndex protocol of the host runtime (a global matcher resumes at
`lastIndex = matchEnd`, which does not advance past a zero-length match).
-/

/-! ## String ordering (modelled collaborator)

Modelled from the spec: the host `Array.prototype.sort` default
comparison, lexicographic by code unit. -/

/-- Lexicographic comparison of character lists. -/
def lexLeChars : List Char → List Char → Bool
  | [], _ => true
  | _ :: _, [] => false
  | a :: as, b :: bs =>
    if a < b then true else if b < a then false else lexLeChars as bs

/-- Lexicographic comparison of strings, as the host's default string
sort order. -/
def strLe (a b : String) : Bool := lexLeChars a.data b.data

/-! ## Flag-name resolution (`collectFlagNames`, `isSingleBit`) -/

/-- Embedding of `isSingleBit` from `picker.ts`: a value is a single bit
when it is nonzero and `value & (value - 1) === 0`. -/
def isSingleBit (value : Nat) : Bool :=
  value != 0 && value &&& (value - 1) == 0

/-- Embedding of `collectFlagNames` from `picker.ts`.  The flag
enumeration is the list of (name, numeric value) entries of the
enumeration object; non-numeric reverse-mapping entries are already
excluded by the `typeof value !== "number"` guard and so do not appear in
the model.  Names of single-bit constants whose bit is set are collected
into a set (deduplicated) and sorted. -/
def collectFlagNames (flagEnum : List (String × Nat)) (flags : Nat) : List String :=
  let names :=
    ((flagEnum.filter (fun e => isSingleBit e.2 && flags &&& e.2 != 0)).map (·.1)).dedup
  names.insertionSort (fun a b => strLe a b = true)

/-! ## Snippet condensing (`condenseSnippet`) -/

/-- Whitespace class of the host regex `\s` restricted to ASCII, as used
by `condenseSnippet`'s `replace(/\s+/g, " ")` and `trim()`. -/
def isJsWs (c : Char) : Bool :=
  c == ' ' || c == '\t' || c == '\n' || c == '\r' ||
    c == '\x0b' || c == '\x0c'

/-- Model of `snippet.replace(/\s+/g, " ")`: every maximal run of
whitespace becomes a single space. -/
def collapseWs : List Char → List Char
  | [] => []
  | [c] => if isJsWs c then [' '] else [c]
  | c :: d :: rest =>
    if isJsWs c then
      if isJsWs d then collapseWs (d :: rest)
      else ' ' :: collapseWs (d :: rest)
    else c :: collapseWs (d :: rest)

/-- Model of `String.prototype.trim`: strip whitespace from both ends. -/
def trimWs (s : List Char) : List Char :=
  ((s.dropWhile isJsWs).reverse.dropWhile isJsWs).reverse

/-- The ellipsis marker appended by `condenseSnippet`. -/
def ellipsisChar : Char := '…'

/-- Embedding of `condenseSnippet` from `picker.ts`: collapse whitespace,
trim, and when the result exceeds `maxLength` code units keep the first
`maxLength` and append one ellipsis marker. -/
def condenseSnippet (snippet : List Char) (maxLength : Nat := 160) : List Char :=
  let singleLine := trimWs (collapseWs snippet)
  if singleLine.length ≤ maxLength then singleLine
  else singleLine.take maxLength ++ [ellipsisChar]

/-! ## Regex flag handling (`includeGlobalFlag`) -/

/-- Embedding of `includeGlobalFlag` from `picker.ts`: append `g` when it
was not requested. -/
def includeGlobalFlag (flags : List Char) : List Char :=
  if flags.contains 'g' then flags else flags ++ ['g']

theorem includeGlobalFlag_contains (flags : List Char) :
    (includeGlobalFlag flags).contains 'g' = true := by
  unfold includeGlobalFlag
  by_cases h : 'g' ∈ flags
  · simp [h]
  · simp [h]

/-! ## Oracle offset/line mapping (modelled collaborator)

Modelled from the spec: the oracle's `getLineAndCharacterOfPosition` and
`getPositionOfLineAndCharacter` mappings, with LF line breaks. -/

/-- Zero-based start offsets of every line of `text`: offset 0, plus the
offset just past each line feed. -/
def lineStarts (text : List Char) : List Nat :=
  0 :: ((List.range text.length).filter (fun i => text.getD i ' ' == '\n')).map (· + 1)

/-- Oracle mapping offset → zero-based (line, character): the line is the
greatest index whose line start is at or before the offset, the character
is the distance from that line start. -/
def lineAndCharOf (ls : List Nat) (pos : Nat) : Nat × Nat :=
  let line := (ls.filter (fun s => s ≤ pos)).length - 1
  (line, pos - ls.getD line 0)

/-- Oracle mapping zero-based (line, character) → offset: the line's
start offset plus the character. -/
def positionOf (ls : List Nat) (line character : Nat) : Nat :=
  ls.getD line 0 + character

/-! ## Literal-pattern regex engine (modelled collaborator)

Modelled from the spec: the host `RegExp`/`exec` engine, restricted to
literal patterns.  `strFind` is one `exec` step of a global matcher with
the given `lastIndex`. -/

/-- Whether the literal pattern occurs in `text` at offset `i`. -/
def matchesAt (pat text : List Char) (i : Nat) : Bool :=
  (text.drop i).take pat.length == pat

/-- One `exec` step: the leftmost occurrence of `pat` starting at or
after `start`, or `none` when there is no further occurrence. -/
def strFind (pat text : List Char) (start : Nat) : Option Nat :=
  (List.range (text.length + 1)).find? (fun i => start ≤ i && matchesAt pat text i)

/-- Embedding of the match loop of `resolvePosition` in `picker.ts`: run
`exec` repeatedly, counting matches, until the requested index is
reached; a global matcher resumes at `lastIndex = matchEnd` (for a
zero-length match this does not advance), a non-global matcher stops
after one attempt. -/
def findMatchFrom (g : Bool) (pat text : List Char) (lastIndex : Nat) : Nat → Option Nat
  | 0 =>
    match strFind pat text lastIndex with
    | none => none
    | some i => some i
  | k + 1 =>
    match strFind pat text lastIndex with
    | none => none
    | some i => if g then findMatchFrom g pat text (i + pat.length) k else none

/-- Fuel-bounded scan producing the offsets of all non-overlapping
matches of `pat` in `text` left-to-right from `start`, advancing at
least one position past each match. -/
def scanFromAux (pat text : List Char) : Nat → Nat → List Nat
  | 0, _ => []
  | fuel + 1, start =>
    match strFind pat text start with
    | none => []
    | some i => i :: scanFromAux pat text fuel (i + max pat.length 1)

/-- Specification-side match list: the start offsets of the
non-overlapping matches of `pat` in `text`, scanning left-to-right from
offset 0. -/
def scanMatches (pat text : List Char) : List Nat :=
  scanFromAux pat text (text.length + 1) 0

/-! ## Query resolution (`resolvePosition`) -/

deriving instance DecidableEq for Except

/-- Embedding of the `TypeQuery` union of `picker.ts`: a 1-based
line/column position query or a pattern query with flags and zero-based
match index (`matchIndex` defaults to 0 at the call site). -/
inductive TypeQuery where
  | position (line column : Int)
  | regex (pattern : List Char) (regexFlags : List Char) (matchIndex : Nat)
deriving DecidableEq

/-- Embedding of the `QueryResolution` record of `picker.ts`. -/
structure QueryResolution where
  position : Nat
  line : Nat
  column : Nat
  matchedText : List Char
deriving DecidableEq

/-- Error message of the position branch of `resolvePosition`. -/
def invalidPositionMsg : List Char :=
  "Line and column must be 1-based and positive".data

/-- Error message of the pattern branch of `resolvePosition`. -/
def regexNoMatchMsg (pat : List Char) (matchIndex : Nat) (fileName : List Char) : List Char :=
  "Regex \"".data ++ pat ++ "\" did not match index ".data ++
    (Nat.repr matchIndex).data ++ " in ".data ++ fileName

/-- Embedding of `resolvePosition` from `picker.ts`.  For a pattern
query: build the matcher with `includeGlobalFlag` applied to the
requested flags, iterate `exec` selecting the match at the requested
index (stopping after one attempt if the matcher is not global), and on
success record the offset, the 1-based line/column derived from it, and
the matched substring; otherwise fail.  For a position query: reject a
non-positive line or column, else delegate to the oracle's
line/character-to-offset mapping and record an empty matched text. -/
def resolvePosition (fileName text : List Char) (query : TypeQuery) :
    Except (List Char) QueryResolution :=
  match query with
  | .regex pat regexFlags matchIndex =>
    let flags := includeGlobalFlag regexFlags
    let g := flags.contains 'g'
    match findMatchFrom g pat text 0 matchIndex with
    | some i =>
      let lc := lineAndCharOf (lineStarts text) i
      .ok ⟨i, lc.1 + 1, lc.2 + 1, (text.drop i).take pat.length⟩
    | none => .error (regexNoMatchMsg pat matchIndex fileName)
  | .position line column =>
    if line ≤ 0 ∨ column ≤ 0 then .error invalidPositionMsg
    else
      .ok ⟨positionOf (lineStarts text) (line - 1).toNat (column - 1).toNat,
           line.toNat, column.toNat, []⟩


/-! ## Node locator (`findClosestNode`) -/

/-- Embedding of the syntax-tree nodes consumed by `findClosestNode`:
a kind label, the trivia-inclusive start (`getFullStart`), the
post-trivia start (`getStart`), the end (`getEnd`), and the children in
document order. -/
inductive Node where
  | node (kind : String) (fullStart startPos endPos : Nat) (children : List Node)

/-- Kind label of a node. -/
def Node.kindOf : Node → String
  | .node k _ _ _ _ => k

/-- Trivia-inclusive start offset (`getFullStart`). -/
def Node.fullStart : Node → Nat
  | .node _ fs _ _ _ => fs

/-- Post-trivia start offset (`getStart`). -/
def Node.startPos : Node → Nat
  | .node _ _ s _ _ => s

/-- End offset (`getEnd`). -/
def Node.endPos : Node → Nat
  | .node _ _ _ e _ => e

/-- Children in document order. -/
def Node.children : Node → List Node
  | .node _ _ _ _ cs => cs

/-- Whether the trivia-inclusive span `[getFullStart, getEnd]` contains
the offset: the descent guard of `findClosestNode`. -/
def fullSpanContains (n : Node) (pos : Nat) : Bool :=
  n.fullStart ≤ pos && pos ≤ n.endPos

/-- Whether the post-trivia span `[getStart, getEnd]` contains the
offset: the `bestNode` update guard of `findClosestNode`. -/
def tightSpanContains (n : Node) (pos : Nat) : Bool :=
  n.startPos ≤ pos && pos ≤ n.endPos

/-- Embedding of the `visit` closure of `findClosestNode` in
`picker.ts`, sequenced over a worklist: visiting a node returns early
when the offset is outside its trivia-inclusive span, otherwise updates
the best node when the offset is inside its post-trivia span and then
visits its children in order; the mutable `bestNode` is threaded through
as an accumulator. -/
def visitList (pos : Nat) (best : Node) : List Node → Node
  | [] => best
  | .node k fs s e cs :: rest =>
    visitList pos
      (if pos < fs || e < pos then best
       else visitList pos (if s ≤ pos && pos ≤ e then .node k fs s e cs else best) cs)
      rest

/-- Embedding of `findClosestNode` from `picker.ts`: `bestNode` starts
as the source-file root and `visit` is applied to the root. -/
def findClosestNode (root : Node) (pos : Nat) : Node :=
  visitList pos root [root]

/-- Depth-first list of the nodes that the `visit` traversal marks as
best: nodes whose post-trivia span contains the offset, reached through
a path whose every node's trivia-inclusive span contains the offset. -/
def candidatesList (pos : Nat) : List Node → List Node
  | [] => []
  | .node k fs s e cs :: rest =>
    (if pos < fs || e < pos then []
     else
       (if s ≤ pos && pos ≤ e then [Node.node k fs s e cs] else []) ++
         candidatesList pos cs) ++
      candidatesList pos rest


/-! ## Fact aggregation (`collectSignatures`, `collectProperties`,
`collectDeclarations`) -/

/-- Embedding of the `SignatureInfo` record of `picker.ts`; the kind is
the label "call" or "construct". -/
structure SignatureInfo where
  kind : String
  signature : String
deriving DecidableEq

/-- Embedding of the `PropertyInfo` record of `picker.ts`. -/
structure PropertyInfo where
  name : String
  type : String
  optional : Bool
deriving DecidableEq

/-- Embedding of the `DeclarationInfo` record of `picker.ts`. -/
structure DeclarationInfo where
  file : List Char
  line : Nat
  column : Nat
  kind : String
  snippet : List Char
deriving DecidableEq

/-- Embedding of the `DiagnosticInfo` record of `picker.ts`. -/
structure DiagnosticInfo where
  category : String
  message : String
  file : Option (List Char)
  line : Option Nat
  column : Option Nat
deriving DecidableEq

/-- Embedding of `collectSignatures` from `picker.ts` with the oracle's
rendered signature strings supplied: up to `limit` call signatures in
declared order, then up to `limit` construct signatures. -/
def collectSignatures (callSigs constructSigs : List String) (limit : Nat := 5) :
    List SignatureInfo :=
  (callSigs.take limit).map (fun s => ⟨"call", s⟩) ++
    (constructSigs.take limit).map (fun s => ⟨"construct", s⟩)

/-- Oracle view of one property symbol of a member type: its name, the
`SymbolFlags.Optional` bit of its flags, and the rendered type string of
the symbol at its canonical declaration (or the queried node). -/
structure PropSym where
  name : String
  optionalFlag : Bool
  typeStr : String
deriving DecidableEq

/-- Oracle view of `checker.getNonNullableType` applied to the queried
type, together with the apparent-type property lists
(`checker.getPropertiesOfType ∘ checker.getApparentType`) of its
members: either a non-union type with its property list, or a union with
one property list per member. -/
inductive CheckerType where
  | nonUnion (props : List PropSym)
  | union (members : List (List PropSym))
deriving DecidableEq

/-- Whether the non-nullable projection is a union
(`nonNullable.flags & TypeFlags.Union`). -/
def CheckerType.isUnion : CheckerType → Bool
  | .nonUnion _ => false
  | .union _ => true

/-- The `memberTypes` list of `collectProperties`: the union's members,
or the single non-union type. -/
def memberTypesOf : CheckerType → List (List PropSym)
  | .nonUnion props => [props]
  | .union members => members

/-- Value of `presenceByName` for one name: each member contributes at
most once (the `seen` set), so this is the number of members whose
apparent property set contains the name. -/
def presenceCount (members : List (List PropSym)) (name : String) : Nat :=
  (members.filter (fun m => m.any (fun s => s.name == name))).length

/-- Value of `optionalFlagByName` for one name: true as soon as any
occurrence of the property carries the optional flag, false when every
occurrence lacks it. -/
def optionalFlagFor (members : List (List PropSym)) (name : String) : Bool :=
  members.any (fun m => m.any (fun s => s.name == name && s.optionalFlag))

/-- Value of `symbolByName` for one name: the first property symbol with
that name in member order. -/
def firstSymbolFor (members : List (List PropSym)) (name : String) : Option PropSym :=
  (members.flatMap id).find? (fun s => s.name == name)

/-- Keys of `symbolByName`: every property name occurring on any
member. -/
def allPropNames (members : List (List PropSym)) : List String :=
  ((members.flatMap id).map (·.name)).dedup

/-- Embedding of `collectProperties` from `picker.ts`: split the
non-nullable projection into member types, gather every property name,
and for each name in sorted order (bounded by `limit`) report the first
member's symbol with its rendered type and an optionality that is true
when the optional flag is set on some occurrence or the name is present
on fewer members than the total member count. -/
def collectProperties (t : CheckerType) (limit : Nat := 25) : List PropertyInfo :=
  let members := memberTypesOf t
  let names := (allPropNames members).insertionSort (fun a b => strLe a b = true)
  let totalMembers := if members.length > 0 then members.length else 1
  (names.take limit).map (fun name =>
    { name := name
      type := ((firstSymbolFor members name).map (·.typeStr)).getD ""
      optional :=
        optionalFlagFor members name || decide (presenceCount members name < totalMembers) })

/-- Oracle view of one declaration of a symbol: its source file's name
and full text, the declaration's post-trivia start and end offsets, and
its kind label. -/
structure Decl where
  fileName : List Char
  text : List Char
  startPos : Nat
  endPos : Nat
  kind : String
deriving DecidableEq

/-- Oracle view of a resolved symbol: rendered name, flag bitmask, and
declarations. -/
structure Symb where
  name : String
  flags : Nat
  decls : List Decl
deriving DecidableEq

/-- Embedding of `collectDeclarations` from `picker.ts`: up to `limit`
declarations, each reported with its file, the 1-based line/column of
its start, its kind label, and the condensed snippet of its source
span. -/
def collectDeclarations (symbol : Symb) (limit : Nat := 10) : List DeclarationInfo :=
  (symbol.decls.take limit).map (fun d =>
    let lc := lineAndCharOf (lineStarts d.text) d.startPos
    { file := d.fileName
      line := lc.1 + 1
      column := lc.2 + 1
      kind := d.kind
      snippet := condenseSnippet ((d.text.drop d.startPos).take (d.endPos - d.startPos)) })

/-! ## Result assembly (`pickType`) and output filters -/

/-- Embedding of the `TypeInfo` record of `picker.ts`. -/
structure TypeInfo where
  file : List Char
  project : Option (List Char)
  positionLine : Nat
  positionColumn : Nat
  positionOffset : Nat
  matchedText : List Char
  nodeKind : String
  typeString : String
  typeFlagsBits : Nat
  typeFlagsNames : List String
  symbol : Option (String × Nat × List String)
  signatures : List SignatureInfo
  properties : List PropertyInfo
  declarations : List DeclarationInfo
  diagnostics : List DiagnosticInfo
deriving DecidableEq

/-- Oracle answers used by `pickType` for the located node: the type's
flag bitmask, the two flag enumerations, the symbol bound at the node
(`checker.getSymbolAtLocation`) and the type's own symbol
(`type.getSymbol()`), the rendered call/construct signatures, the
non-nullable projection with member properties, the file's diagnostics,
and the rendered type string. -/
structure Oracle where
  typeFlags : Nat
  typeFlagEnum : List (String × Nat)
  symbolFlagEnum : List (String × Nat)
  symbolAtLocation : Option Symb
  typeSymbol : Option Symb
  callSignatures : List String
  constructSignatures : List String
  checkerType : CheckerType
  diagnostics : List DiagnosticInfo
  typeString : String

/-- Embedding of `pickType` from `picker.ts`, from query resolution
onward (file lookup and program construction are the collaborator's):
resolve the query, locate the node, resolve the symbol preferring the
one bound at the node over the type's own, aggregate facts, and fall
back to the located node's source text when the resolution's matched
text is empty. -/
def pickType (fileName : List Char) (project : Option (List Char)) (text : List Char)
    (tree : Node) (o : Oracle) (query : TypeQuery) : Except (List Char) TypeInfo :=
  match resolvePosition fileName text query with
  | .error e => .error e
  | .ok res =>
    let node := findClosestNode tree res.position
    let typeFlagNames := collectFlagNames o.typeFlagEnum o.typeFlags
    let symbol :=
      match o.symbolAtLocation with
      | some s => some s
      | none => o.typeSymbol
    let signatures := collectSignatures o.callSignatures o.constructSignatures
    let properties := collectProperties o.checkerType
    let declarations :=
      match symbol with
      | some s => collectDeclarations s
      | none => []
    let matchedText :=
      if res.matchedText.length > 0 then res.matchedText
      else (text.drop node.startPos).take (node.endPos - node.startPos)
    .ok
      { file := fileName
        project := project
        positionLine := res.line
        positionColumn := res.column
        positionOffset := res.position
        matchedText := matchedText
        nodeKind := node.kindOf
        typeString := o.typeString
        typeFlagsBits := o.typeFlags
        typeFlagsNames := typeFlagNames
        symbol := symbol.map (fun s => (s.name, s.flags, collectFlagNames o.symbolFlagEnum s.flags))
        signatures := signatures
        properties := properties
        declarations := declarations
        diagnostics := o.diagnostics }

/-- Embedding of `applyOutputFilters` from `cli.ts`: clone the record
and replace each list whose omission flag is set with the empty list. -/
def applyOutputFilters (result : TypeInfo)
    (omitDiagnostics omitProperties omitSignatures : Bool) : TypeInfo :=
  { result with
    diagnostics := if omitDiagnostics then [] else result.diagnostics
    properties := if omitProperties then [] else result.properties
    signatures := if omitSignatures then [] else result.signatures }

/-! ## Demonstration fixtures -/

/-- A one-node tree for the file "ab": the source-file root spanning the
whole text. -/
def demoTree : Node := .node "S" 0 0 2 []

/-- An oracle with no symbol, no signatures, no properties and no
diagnostics. -/
def demoOracle : Oracle :=
  { typeFlags := 0
    typeFlagEnum := []
    symbolFlagEnum := []
    symbolAtLocation := none
    typeSymbol := none
    callSignatures := []
    constructSignatures := []
    checkerType := .nonUnion []
    diagnostics := []
    typeString := "T" }

/-- A leaf whose leading trivia covers offsets 0 and 1 (as for the file
"  x": full start 0, post-trivia start 2, end 3). -/
def triviaChild : Node := .node "I" 0 2 3 []

/-- A root whose only child is `triviaChild`, with the same spans. -/
def triviaTree : Node := .node "S" 0 2 3 [triviaChild]

/-- The non-nullable projection of the union
`{id: string} | {id: string, email: string}`: `email` is present on one
of the two members and optional on none. -/
def demoUnionType : CheckerType :=
  .union [[⟨"id", false, "string"⟩], [⟨"id", false, "string"⟩, ⟨"email", false, "string"⟩]]

/-! ## Helper lemmas -/

theorem collectFlagNames_mem_iff (flagEnum : List (String × Nat)) (flags : Nat) (n : String) :
    n ∈ collectFlagNames flagEnum flags ↔
      ∃ v, (n, v) ∈ flagEnum ∧ isSingleBit v = true ∧ flags &&& v ≠ 0 := by
  unfold collectFlagNames
  simp only [List.mem_insertionSort, List.mem_dedup, List.mem_map, List.mem_filter]
  constructor
  · rintro ⟨⟨n', v⟩, ⟨hmem, hcond⟩, rfl⟩
    simp only [Bool.and_eq_true, bne_iff_ne, ne_eq] at hcond
    exact ⟨v, hmem, hcond.1, hcond.2⟩
  · rintro ⟨v, hmem, h1, h2⟩
    exact ⟨(n, v), ⟨hmem, by simp [h1, h2]⟩, rfl⟩

theorem lexLeChars_total : ∀ as bs : List Char, lexLeChars as bs = true ∨ lexLeChars bs as = true
  | [], _ => Or.inl rfl
  | _ :: _, [] => Or.inr rfl
  | a :: as, b :: bs => by
    rcases lt_trichotomy a b with h | h | h
    · left
      simp [lexLeChars, h]
    · subst h
      rcases lexLeChars_total as bs with ih | ih
      · left
        simp [lexLeChars, lt_irrefl, ih]
      · right
        simp [lexLeChars, lt_irrefl, ih]
    · right
      simp [lexLeChars, h]

theorem lexLeChars_trans : ∀ as bs cs : List Char,
    lexLeChars as bs = true → lexLeChars bs cs = true → lexLeChars as cs = true
  | [], _, _, _, _ => by simp [lexLeChars]
  | _ :: _, [], _, h1, _ => by simp [lexLeChars] at h1
  | _ :: _, _ :: _, [], _, h2 => by simp [lexLeChars] at h2
  | a :: as, b :: bs, c :: cs, h1, h2 => by
    simp only [lexLeChars] at h1 h2 ⊢
    rcases lt_trichotomy a b with hab | hab | hab
    · rcases lt_trichotomy b c with hbc | hbc | hbc
      · rw [if_pos (lt_trans hab hbc)]
      · subst hbc
        rw [if_pos hab]
      · rw [if_neg (lt_asymm hbc), if_pos hbc] at h2
        cases h2
    · subst hab
      rw [if_neg (lt_irrefl a), if_neg (lt_irrefl a)] at h1
      rcases lt_trichotomy a c with hac | hac | hac
      · rw [if_pos hac]
      · subst hac
        rw [if_neg (lt_irrefl a), if_neg (lt_irrefl a)] at h2 ⊢
        exact lexLeChars_trans as bs cs h1 h2
      · rw [if_neg (lt_asymm hac), if_pos hac] at h2
        cases h2
    · rw [if_neg (lt_asymm hab), if_pos hab] at h1
      cases h1

/-! ## Claim theorems -/

/-- C9: for every result record and every combination of omission flags,
`applyOutputFilters` replaces exactly the omitted lists (diagnostics,
properties, signatures) with the empty list and leaves every other
field of the record unchanged; in particular omitting properties leaves
diagnostics and signatures unchanged. -/
theorem applyOutputFilters_frame (r : TypeInfo) (d p s : Bool) :
    (applyOutputFilters r d p s).file = r.file ∧
    (applyOutputFilters r d p s).project = r.project ∧
    (applyOutputFilters r d p s).positionLine = r.positionLine ∧
    (applyOutputFilters r d p s).positionColumn = r.positionColumn ∧
    (applyOutputFilters r d p s).positionOffset = r.positionOffset ∧
    (applyOutputFilters r d p s).matchedText = r.matchedText ∧
    (applyOutputFilters r d p s).nodeKind = r.nodeKind ∧
    (applyOutputFilters r d p s).typeString = r.typeString ∧
    (applyOutputFilters r d p s).typeFlagsBits = r.typeFlagsBits ∧
    (applyOutputFilters r d p s).typeFlagsNames = r.typeFlagsNames ∧
    (applyOutputFilters r d p s).symbol = r.symbol ∧
    (applyOutputFilters r d p s).declarations = r.declarations ∧
    (applyOutputFilters r d p s).diagnostics = (if d then [] else r.diagnostics) ∧
    (applyOutputFilters r d p s).properties = (if p then [] else r.properties) ∧
    (applyOutputFilters r d p s).signatures = (if s then [] else r.signatures) :=
  ⟨rfl, rfl, rfl, rfl, rfl, rfl, rfl, rfl, rfl, rfl, rfl, rfl, rfl, rfl, rfl⟩

/-- C3 (amended): flag-name resolution returns exactly the names having
at least one nonzero power-of-two constant value whose bit is set in
the mask, sorted and without duplicates, and the empty list for a zero
bitmask; when the enumeration does not list two distinct names with the
same constant value, it never returns two different names for the same
bit value. -/
theorem collectFlagNames_spec (flagEnum : List (String × Nat)) (flags : Nat) :
    (∀ n, n ∈ collectFlagNames flagEnum flags ↔
        ∃ v, (n, v) ∈ flagEnum ∧ isSingleBit v = true ∧ flags &&& v ≠ 0) ∧
    (collectFlagNames flagEnum flags).Sorted (fun a b => strLe a b = true) ∧
    (collectFlagNames flagEnum flags).Nodup ∧
    (flags = 0 → collectFlagNames flagEnum flags = []) ∧
    ((∀ n₁ n₂ v, (n₁, v) ∈ flagEnum → (n₂, v) ∈ flagEnum → n₁ = n₂) →
      ∀ n₁ n₂ v, n₁ ∈ collectFlagNames flagEnum flags →
        n₂ ∈ collectFlagNames flagEnum flags →
        (n₁, v) ∈ flagEnum → (n₂, v) ∈ flagEnum → n₁ = n₂) := by
  refine ⟨collectFlagNames_mem_iff flagEnum flags, ?_, ?_, ?_, ?_⟩
  · haveI : IsTotal String (fun a b => strLe a b = true) :=
      ⟨fun a b => lexLeChars_total a.data b.data⟩
    haveI : IsTrans String (fun a b => strLe a b = true) :=
      ⟨fun a b c => lexLeChars_trans a.data b.data c.data⟩
    exact List.sorted_insertionSort _ _
  · exact ((List.perm_insertionSort _ _).nodup_iff).mpr (List.nodup_dedup _)
  · intro h
    subst h
    simp [collectFlagNames, Nat.zero_and]
  · intro hinj n₁ n₂ v _ _ h₁ h₂
    exact hinj n₁ n₂ v h₁ h₂

/-- C3 witness: the amended theorem applied to a concrete enumeration
and masks. -/
theorem collectFlagNames_spec_witness :
    collectFlagNames [("A", 1), ("B", 2)] 0 = [] ∧
    "A" ∈ collectFlagNames [("A", 1), ("B", 2)] 3 :=
  ⟨(collectFlagNames_spec [("A", 1), ("B", 2)] 0).2.2.2.1 rfl,
   ((collectFlagNames_spec [("A", 1), ("B", 2)] 3).1 "A").mpr
     ⟨1, by decide, by decide, by decide⟩⟩

/-- C3 counterexample: an enumeration listing two distinct names with
the same single-bit value makes `collectFlagNames` return two different
names for the same bit value 1, refuting the claim's unconditional
uniqueness conjunct. -/
theorem collectFlagNames_counterexample :
    collectFlagNames [("A", 1), ("B", 1)] 1 = ["A", "B"] ∧
    ("A" : String) ≠ "B" ∧ isSingleBit 1 = true ∧ (1 : Nat) &&& 1 ≠ 0 :=
  ⟨by decide, by decide, by decide, by decide⟩

/-- C8: after whitespace collapsing and trimming, a snippet at or under
160 characters is returned unmodified, and a longer snippet is cut to
its first 160 characters with a single ellipsis marker appended (so the
result has length 161 and ends with the marker). -/
theorem condenseSnippet_spec (snippet : List Char) :
    ((trimWs (collapseWs snippet)).length ≤ 160 →
      condenseSnippet snippet = trimWs (collapseWs snippet)) ∧
    (160 < (trimWs (collapseWs snippet)).length →
      condenseSnippet snippet = (trimWs (collapseWs snippet)).take 160 ++ [ellipsisChar] ∧
      (condenseSnippet snippet).length = 161 ∧
      (condenseSnippet snippet).getLast? = some ellipsisChar) := by
  constructor
  · intro h
    simp [condenseSnippet, h]
  · intro h
    have hne : ¬ (trimWs (collapseWs snippet)).length ≤ 160 := by omega
    refine ⟨by simp [condenseSnippet, hne], ?_, ?_⟩
    · simp [condenseSnippet, hne]
      omega
    · simp [condenseSnippet, hne]

theorem getLastD_append_eq (l₁ l₂ : List Node) (d : Node) :
    (l₁ ++ l₂).getLastD d = l₂.getLastD (l₁.getLastD d) := by
  induction l₁ generalizing d with
  | nil => rfl
  | cons a l ih => simp only [List.cons_append, List.getLastD_cons, ih]

theorem visitList_eq_candidates (pos : Nat) (best : Node) (ns : List Node) :
    visitList pos best ns = (candidatesList pos ns).getLastD best := by
  induction best, ns using visitList.induct pos with
  | case1 best => simp [visitList, candidatesList]
  | case2 best k fs s e cs rest ihc ihr =>
    rw [visitList, candidatesList, getLastD_append_eq, ihr]
    congr 1
    by_cases hguard : pos < fs || e < pos
    · simp only [hguard, if_true]
      rfl
    · simp only [hguard, if_false, Bool.false_eq_true]
      rw [ihc, getLastD_append_eq]
      by_cases htight : s ≤ pos && pos ≤ e
      · simp only [htight, if_true]
        rfl
      · simp only [htight, if_false, Bool.false_eq_true]
        rfl

/-- C5 (amended): the node locator is a total deterministic function
whose result is the last node in depth-first order among those whose
post-trivia span `[getStart, getEnd]` contains the offset and that are
reached only through nodes whose trivia-inclusive span
`[getFullStart, getEnd]` contains the offset; when no node qualifies
(in particular when the offset lies in leading trivia of every token)
the root itself is returned. -/
theorem findClosestNode_spec (root : Node) (pos : Nat) :
    findClosestNode root pos = (candidatesList pos [root]).getLastD root :=
  visitList_eq_candidates pos root [root]

/-- C5 counterexample: with the offset inside the leading trivia of the
root's only child, the child's trivia-inclusive span contains the
offset and the child is deeper than the root, yet `findClosestNode`
returns the root — the claim's trivia-inclusive containment rule would
select the child. -/
theorem findClosestNode_counterexample :
    findClosestNode triviaTree 1 = triviaTree ∧
    fullSpanContains triviaChild 1 = true ∧
    tightSpanContains triviaChild 1 = false ∧
    triviaTree.children = [triviaChild] ∧
    triviaChild ≠ triviaTree := by
  refine ⟨rfl, rfl, rfl, rfl, ?_⟩
  intro h
  simp [triviaChild, triviaTree] at h

/-- C2 (amended): a successful position query resolves with an empty
matched text, but the returned record's `matchedText` field is then the
located node's source text, not the empty string — `pickType` falls
back to `node.getText()` whenever the resolution's matched text is
empty. -/
theorem pickType_position_matchedText (fileName : List Char) (project : Option (List Char))
    (text : List Char) (tree : Node) (o : Oracle) (line column : Int) (res : QueryResolution)
    (hres : resolvePosition fileName text (.position line column) = .ok res) :
    res.matchedText = [] ∧
    ∀ r, pickType fileName project text tree o (.position line column) = .ok r →
      r.matchedText =
        (text.drop (findClosestNode tree res.position).startPos).take
          ((findClosestNode tree res.position).endPos -
            (findClosestNode tree res.position).startPos) := by
  have hmt : res.matchedText = [] := by
    simp only [resolvePosition] at hres
    split at hres
    · cases hres
    · injection hres with h
      rw [← h]
  refine ⟨hmt, ?_⟩
  intro r hr
  simp only [pickType, hres] at hr
  injection hr with h
  rw [← h]
  simp [hmt]

/-- C2 witness: the amended theorem applied to the file "ab" queried at
line 1, column 1, where the located node spans the whole text. -/
theorem pickType_position_matchedText_witness :
    Except.map TypeInfo.matchedText
        (pickType "f".data none "ab".data demoTree demoOracle (.position 1 1)) =
      .ok "ab".data := by
  have hpk : pickType "f".data none "ab".data demoTree demoOracle (.position 1 1) =
      .ok ⟨"f".data, none, 1, 1, 0, "ab".data, "S", "T", 0, [], none, [], [], [], []⟩ := by
    decide
  have h := (pickType_position_matchedText "f".data none "ab".data demoTree demoOracle 1 1
      ⟨0, 1, 1, []⟩ rfl).2 _ hpk
  calc (Except.map TypeInfo.matchedText
        (pickType "f".data none "ab".data demoTree demoOracle (.position 1 1)))
      = Except.ok (TypeInfo.matchedText
          ⟨"f".data, none, 1, 1, 0, "ab".data, "S", "T", 0, [], none, [], [], [], []⟩) := by
        rw [hpk]
        rfl
    _ = Except.ok (("ab".data.drop (findClosestNode demoTree 0).startPos).take
          ((findClosestNode demoTree 0).endPos - (findClosestNode demoTree 0).startPos)) :=
        congrArg Except.ok h
    _ = Except.ok "ab".data := by decide

/-- C2 counterexample: for the position query (1, 1) on the file "ab"
the returned record's matchedText is "ab", not the empty string. -/
theorem pickType_position_matchedText_counterexample :
    Except.map TypeInfo.matchedText
        (pickType "f".data none "ab".data demoTree demoOracle (.position 1 1)) =
      .ok "ab".data ∧
    "ab".data ≠ ([] : List Char) := by
  exact ⟨by decide, by decide⟩

/-- C10: when query resolution succeeds, `pickType` always returns a
record (symbol absence is not an error); whenever the record's symbol
field is absent its declarations list is empty, and when neither a
symbol bound at the node nor the type's own symbol exists, both the
symbol is omitted and the declarations list is empty. -/
theorem pickType_symbol_declarations (fileName : List Char) (project : Option (List Char))
    (text : List Char) (tree : Node) (o : Oracle) (query : TypeQuery) (res : QueryResolution)
    (hres : resolvePosition fileName text query = .ok res) :
    ∃ r, pickType fileName project text tree o query = .ok r ∧
      (r.symbol = none → r.declarations = []) ∧
      (o.symbolAtLocation = none ∧ o.typeSymbol = none →
        r.symbol = none ∧ r.declarations = []) := by
  unfold pickType
  rw [hres]
  refine ⟨_, rfl, ?_, ?_⟩
  · intro hsym
    cases hs : o.symbolAtLocation with
    | some s => simp [hs] at hsym
    | none =>
      cases ht : o.typeSymbol with
      | some s => simp [hs, ht] at hsym
      | none => simp [hs, ht]
  · rintro ⟨hs, ht⟩
    simp [hs, ht]

/-- C10 witness: the theorem applied to an oracle without any resolved
symbol: the returned record has no symbol and no declarations. -/
theorem pickType_symbol_declarations_witness :
    Except.map TypeInfo.symbol
        (pickType "f".data none "ab".data demoTree demoOracle (.position 1 1)) = .ok none ∧
    Except.map TypeInfo.declarations
        (pickType "f".data none "ab".data demoTree demoOracle (.position 1 1)) = .ok [] := by
  obtain ⟨r, hr, -, himp⟩ := pickType_symbol_declarations "f".data none "ab".data demoTree
    demoOracle (.position 1 1) ⟨0, 1, 1, []⟩ rfl
  obtain ⟨hs, hd⟩ := himp ⟨rfl, rfl⟩
  rw [hr]
  constructor
  · calc Except.map TypeInfo.symbol (Except.ok r) = Except.ok r.symbol := rfl
      _ = Except.ok none := by rw [hs]
  · calc Except.map TypeInfo.declarations (Except.ok r) = Except.ok r.declarations := rfl
      _ = Except.ok [] := by rw [hd]

set_option maxRecDepth 20000 in
/-- C8 witness: the theorem applied to a short snippet with doubled
whitespace and to a 170-character snippet. -/
theorem condenseSnippet_spec_witness :
    condenseSnippet "a  b".data = "a b".data ∧
    condenseSnippet (List.replicate 170 'a') = List.replicate 160 'a' ++ [ellipsisChar] ∧
    (condenseSnippet (List.replicate 170 'a')).length = 161 ∧
    (condenseSnippet (List.replicate 170 'a')).getLast? = some ellipsisChar := by
  have h1 := (condenseSnippet_spec "a  b".data).1 (by decide)
  have h2 := (condenseSnippet_spec (List.replicate 170 'a')).2 (by decide)
  refine ⟨?_, ?_, h2.2.1, h2.2.2⟩
  · rw [h1]
    decide
  · rw [h2.1]
    decide

theorem lineStarts_pairwise (text : List Char) : (lineStarts text).Pairwise (· < ·) := by
  unfold lineStarts
  refine List.Pairwise.cons ?_ ?_
  · intro b hb
    simp only [List.mem_map, List.mem_filter, List.mem_range] at hb
    obtain ⟨i, _, rfl⟩ := hb
    omega
  · rw [List.pairwise_map]
    exact ((List.pairwise_lt_range _).filter _).imp (by omega)

theorem filter_le_length_window (pos : Nat) :
    ∀ (ls : List Nat) (l : Nat), l < ls.length →
      (∀ i (hi : i < ls.length), (ls.get ⟨i, hi⟩ ≤ pos ↔ i ≤ l)) →
      (ls.filter (fun s => s ≤ pos)).length = l + 1
  | [], l, hl, _ => by simp at hl
  | a :: tl, l, hl, hiff => by
    have ha : a ≤ pos := (hiff 0 (by simp)).mpr (Nat.zero_le l)
    rw [List.filter_cons_of_pos (by simpa using ha)]
    cases l with
    | zero =>
      have htl : tl.filter (fun s => s ≤ pos) = [] := by
        rw [List.filter_eq_nil_iff]
        intro x hx
        obtain ⟨i, hxi⟩ := List.mem_iff_get.mp hx
        have := hiff (i.1 + 1) (by simpa using i.2)
        simp only [List.get_cons_succ] at this
        rw [hxi] at this
        simpa using this.mp
      simp [htl]
    | succ k =>
      have hrec := filter_le_length_window pos tl k (by simpa using hl) ?_
      · simp [hrec]
      · intro i hi
        have := hiff (i + 1) (by simpa using hi)
        simpa using this

theorem lineAndCharOf_positionOf (ls : List Nat) (l c : Nat)
    (hsorted : ls.Pairwise (· < ·)) (hl : l < ls.length)
    (hnext : ∀ _ : l + 1 < ls.length, ls.getD l 0 + c < ls.getD (l + 1) 0) :
    lineAndCharOf ls (positionOf ls l c) = (l, c) := by
  have hpair := List.pairwise_iff_get.mp hsorted
  have hgetDl : ls.getD l 0 = ls.get ⟨l, hl⟩ := by
    rw [List.getD_eq_getElem?_getD, List.getElem?_eq_getElem hl]
    rfl
  have hiff : ∀ i (hi : i < ls.length), (ls.get ⟨i, hi⟩ ≤ positionOf ls l c ↔ i ≤ l) := by
    intro i hi
    constructor
    · intro hle
      by_contra hgt
      push_neg at hgt
      have hl1 : l + 1 < ls.length := by omega
      have h1 : positionOf ls l c < ls.getD (l + 1) 0 := hnext hl1
      have hgetD1 : ls.getD (l + 1) 0 = ls.get ⟨l + 1, hl1⟩ := by
        rw [List.getD_eq_getElem?_getD, List.getElem?_eq_getElem hl1]
        rfl
      have h2 : ls.get ⟨l + 1, hl1⟩ ≤ ls.get ⟨i, hi⟩ := by
        rcases Nat.lt_or_ge (l + 1) i with hlt | hge
        · exact le_of_lt (hpair ⟨l + 1, hl1⟩ ⟨i, hi⟩ hlt)
        · have : i = l + 1 := by omega
          subst this
          exact le_rfl
      rw [hgetD1] at h1
      omega
    · intro hle
      rcases Nat.lt_or_ge i l with hlt | hge
      · have := hpair ⟨i, hi⟩ ⟨l, hl⟩ hlt
        unfold positionOf
        omega
      · have : i = l := by omega
        subst this
        unfold positionOf
        omega
  unfold lineAndCharOf
  rw [filter_le_length_window (positionOf ls l c) ls l hl hiff]
  simp only [Nat.add_sub_cancel]
  refine Prod.ext rfl ?_
  simp only
  unfold positionOf
  omega

/-- C6: for a position query whose 1-based line and column lie within
the file's bounds, the resolver succeeds with the offset given by the
oracle's line/character-to-offset mapping, and mapping that offset back
through the oracle's offset-to-line/character mapping recovers the
original zero-based pair (hence the original 1-based line and
column). -/
theorem resolvePosition_roundtrip (fileName text : List Char) (line column : Int)
    (hl : 1 ≤ line) (hc : 1 ≤ column)
    (hline : (line - 1).toNat < (lineStarts text).length)
    (hcol : ∀ _ : (line - 1).toNat + 1 < (lineStarts text).length,
      positionOf (lineStarts text) (line - 1).toNat (column - 1).toNat <
        (lineStarts text).getD ((line - 1).toNat + 1) 0) :
    resolvePosition fileName text (.position line column) =
      .ok ⟨positionOf (lineStarts text) (line - 1).toNat (column - 1).toNat,
        line.toNat, column.toNat, []⟩ ∧
    lineAndCharOf (lineStarts text)
        (positionOf (lineStarts text) (line - 1).toNat (column - 1).toNat) =
      ((line - 1).toNat, (column - 1).toNat) ∧
    (line - 1).toNat + 1 = line.toNat ∧ (column - 1).toNat + 1 = column.toNat := by
  refine ⟨?_, ?_, by omega, by omega⟩
  · simp only [resolvePosition]
    rw [if_neg (by omega)]
  · exact lineAndCharOf_positionOf _ _ _ (lineStarts_pairwise text) hline hcol

/-- C6 witness: the theorem applied to the file "ab\ncd" at line 2,
column 2, resolving to offset 4 and mapping back to (2, 2). -/
theorem resolvePosition_roundtrip_witness :
    resolvePosition "f".data "ab\ncd".data (.position 2 2) = .ok ⟨4, 2, 2, []⟩ ∧
    lineAndCharOf (lineStarts "ab\ncd".data) 4 = (1, 1) := by
  have h := resolvePosition_roundtrip "f".data "ab\ncd".data 2 2 (by decide) (by decide)
    (by decide) (fun hcontra => absurd hcontra (by decide))
  exact ⟨h.1, h.2.1⟩

theorem regexNoMatchMsg_parts (pat : List Char) (k : Nat) (fn : List Char) :
    pat <:+: regexNoMatchMsg pat k fn ∧ (Nat.repr k).data <:+: regexNoMatchMsg pat k fn := by
  constructor
  · exact ⟨"Regex \"".data,
      "\" did not match index ".data ++ (Nat.repr k).data ++ " in ".data ++ fn,
      by simp [regexNoMatchMsg]⟩
  · exact ⟨"Regex \"".data ++ pat ++ "\" did not match index ".data, " in ".data ++ fn,
      by simp [regexNoMatchMsg]⟩

/-- C7 (amended): both invalid-query failures are raised immediately as
errors; the pattern-query failure message includes the pattern and the
requested index, while the position-query failure message is a fixed
statement of the constraint that does not include the supplied
line/column values. -/
theorem resolvePosition_invalid_errors (fileName text pat flags : List Char)
    (line column : Int) (k : Nat) :
    (line ≤ 0 ∨ column ≤ 0 →
      resolvePosition fileName text (.position line column) = .error invalidPositionMsg) ∧
    (findMatchFrom ((includeGlobalFlag flags).contains 'g') pat text 0 k = none →
      resolvePosition fileName text (.regex pat flags k) =
        .error (regexNoMatchMsg pat k fileName) ∧
      pat <:+: regexNoMatchMsg pat k fileName ∧
      (Nat.repr k).data <:+: regexNoMatchMsg pat k fileName) := by
  constructor
  · intro h
    simp only [resolvePosition]
    rw [if_pos h]
  · intro h
    refine ⟨?_, regexNoMatchMsg_parts pat k fileName⟩
    simp only [resolvePosition]
    rw [h]

/-- C7 witness: the theorem applied to the position query (0, 1) and to
the pattern "zz" absent from the file "ab". -/
theorem resolvePosition_invalid_errors_witness :
    resolvePosition "f".data "ab".data (.position 0 1) = .error invalidPositionMsg ∧
    (resolvePosition "f".data "ab".data (.regex "zz".data [] 0) =
        .error (regexNoMatchMsg "zz".data 0 "f".data) ∧
      "zz".data <:+: regexNoMatchMsg "zz".data 0 "f".data ∧
      (Nat.repr 0).data <:+: regexNoMatchMsg "zz".data 0 "f".data) :=
  ⟨(resolvePosition_invalid_errors "f".data "ab".data "zz".data [] 0 1 0).1
      (Or.inl (by decide)),
   (resolvePosition_invalid_errors "f".data "ab".data "zz".data [] 0 1 0).2 (by decide)⟩

/-- C7 counterexample: the position-query error message contains
neither the supplied line 0 nor the supplied column 7; indeed two
different invalid positions produce the identical error value, so the
message cannot include the offending values. -/
theorem resolvePosition_invalid_counterexample :
    resolvePosition "f".data "ab".data (.position 0 7) = .error invalidPositionMsg ∧
    ('0' ∉ invalidPositionMsg) ∧ ('7' ∉ invalidPositionMsg) ∧
    resolvePosition "f".data "ab".data (.position 0 7) =
      resolvePosition "f".data "ab".data (.position (-3) 9) :=
  ⟨by decide, by decide, by decide, by decide⟩

theorem strFind_none_of_lt (pat text : List Char) (start : Nat) (h : text.length < start) :
    strFind pat text start = none := by
  unfold strFind
  rw [List.find?_eq_none]
  intro i hi
  simp only [List.mem_range] at hi
  intro hc
  simp only [Bool.and_eq_true, decide_eq_true_eq] at hc
  obtain ⟨h1, -⟩ := hc
  omega

theorem strFind_some_facts (pat text : List Char) (start i : Nat)
    (h : strFind pat text start = some i) :
    start ≤ i ∧ i + pat.length ≤ text.length ∧ matchesAt pat text i = true := by
  unfold strFind at h
  have hmem := List.mem_of_find?_eq_some h
  have hp := List.find?_some h
  simp only [List.mem_range] at hmem
  simp only [Bool.and_eq_true, decide_eq_true_eq] at hp
  refine ⟨hp.1, ?_, hp.2⟩
  have heq : (text.drop i).take pat.length = pat := by
    have hb := hp.2
    unfold matchesAt at hb
    exact beq_iff_eq.mp hb
  have hlen : ((text.drop i).take pat.length).length = pat.length := by rw [heq]
  rw [List.length_take, List.length_drop] at hlen
  have hmin := Nat.min_le_right pat.length (text.length - i)
  omega

theorem findMatchFrom_eq_scanAux (pat text : List Char) (hp : pat ≠ []) :
    ∀ (fuel start : Nat), text.length + 1 - start ≤ fuel →
      ∀ k, findMatchFrom true pat text start k = (scanFromAux pat text fuel start).get? k := by
  intro fuel
  induction fuel with
  | zero =>
    intro start hfuel k
    have hnone := strFind_none_of_lt pat text start (by omega)
    cases k <;> simp [findMatchFrom, scanFromAux, hnone]
  | succ fuel ih =>
    intro start hfuel k
    cases hsf : strFind pat text start with
    | none => cases k <;> simp [findMatchFrom, scanFromAux, hsf]
    | some i =>
      obtain ⟨hsi, hlen, -⟩ := strFind_some_facts pat text start i hsf
      have hplen : 1 ≤ pat.length := List.length_pos.mpr hp
      have hmax : max pat.length 1 = pat.length := by omega
      cases k with
      | zero => simp [findMatchFrom, scanFromAux, hsf]
      | succ k =>
        simp only [findMatchFrom, hsf, if_true, scanFromAux, List.get?_cons_succ]
        rw [hmax]
        exact ih (i + pat.length) (by omega) k

theorem findMatchFrom_eq_scanMatches (pat text : List Char) (hp : pat ≠ []) (k : Nat) :
    findMatchFrom true pat text 0 k = (scanMatches pat text).get? k :=
  findMatchFrom_eq_scanAux pat text hp (text.length + 1) 0 (by omega) k

/-- C1 (amended): a global/repeat-match flag is always implicitly part
of the matcher; for a pattern with nonempty matches (a nonempty literal
pattern in this model) and zero-based index `k`, when the pattern has at
least `k + 1` non-overlapping matches scanning left-to-right from
offset 0, resolution returns the starting offset of the `(k+1)`-th such
match together with the matched substring and the 1-based line/column
derived from that offset, and when it has at most `k` matches
resolution fails with the invalid-query error.  (For a pattern matching
the empty string the underlying `exec` never advances past the
zero-length match, so resolution instead returns the first match for
every index and never fails.) -/
theorem resolvePosition_regex_spec (fileName text pat flags : List Char) (k : Nat)
    (hp : pat ≠ []) :
    (includeGlobalFlag flags).contains 'g' = true ∧
    (∀ i, (scanMatches pat text).get? k = some i →
      resolvePosition fileName text (.regex pat flags k) =
        .ok ⟨i, (lineAndCharOf (lineStarts text) i).1 + 1,
          (lineAndCharOf (lineStarts text) i).2 + 1,
          (text.drop i).take pat.length⟩) ∧
    ((scanMatches pat text).length ≤ k →
      resolvePosition fileName text (.regex pat flags k) =
        .error (regexNoMatchMsg pat k fileName)) := by
  refine ⟨includeGlobalFlag_contains flags, ?_, ?_⟩
  · intro i hi
    simp only [resolvePosition, includeGlobalFlag_contains flags]
    rw [findMatchFrom_eq_scanMatches pat text hp k, hi]
  · intro hlen
    have hnone : (scanMatches pat text).get? k = none := List.get?_eq_none.mpr hlen
    simp only [resolvePosition, includeGlobalFlag_contains flags]
    rw [findMatchFrom_eq_scanMatches pat text hp k, hnone]

/-- C1 witness: the theorem applied to the pattern "b" in "abab" —
index 1 resolves to the second match at offset 3, index 5 fails with
the invalid-query error. -/
theorem resolvePosition_regex_spec_witness :
    resolvePosition "f".data "abab".data (.regex "b".data [] 1) =
      .ok ⟨3, 1, 4, "b".data⟩ ∧
    resolvePosition "f".data "abab".data (.regex "b".data [] 5) =
      .error (regexNoMatchMsg "b".data 5 "f".data) := by
  have h1 := (resolvePosition_regex_spec "f".data "abab".data "b".data [] 1 (by decide)).2.1
    3 (by decide)
  have h5 := (resolvePosition_regex_spec "f".data "abab".data "b".data [] 5 (by decide)).2.2
    (by decide)
  exact ⟨h1.trans (by decide), h5⟩

/-- C1 counterexample: for the empty pattern (a legal pattern query,
matching the empty string at offsets 0, 1 and 2 of the file "ab") and
index 1, resolution returns offset 0 instead of the second
non-overlapping match at offset 1; for index 5, which exceeds the 3
available matches, resolution succeeds with offset 0 instead of
failing. -/
theorem resolvePosition_regex_counterexample :
    resolvePosition "f".data "ab".data (.regex [] [] 1) = .ok ⟨0, 1, 1, []⟩ ∧
    (scanMatches [] "ab".data).get? 1 = some 1 ∧
    (0 : Nat) ≠ 1 ∧
    (scanMatches [] "ab".data).length = 3 ∧
    resolvePosition "f".data "ab".data (.regex [] [] 5) = .ok ⟨0, 1, 1, []⟩ :=
  ⟨by decide, by decide, by decide, by decide, by decide⟩

theorem optionalFlagFor_iff (members : List (List PropSym)) (name : String) :
    optionalFlagFor members name = true ↔
      ∃ m ∈ members, ∃ s ∈ m, s.name = name ∧ s.optionalFlag = true := by
  unfold optionalFlagFor
  simp only [List.any_eq_true, Bool.and_eq_true, beq_iff_eq]

theorem presenceCount_lt_iff (members : List (List PropSym)) (name : String) :
    presenceCount members name < members.length ↔
      ∃ m ∈ members, ∀ s ∈ m, s.name ≠ name := by
  unfold presenceCount
  rw [List.length_filter_lt_length_iff_exists]
  constructor
  · rintro ⟨m, hm, hnot⟩
    refine ⟨m, hm, ?_⟩
    intro s hs hcontra
    exact hnot (by simp only [List.any_eq_true, beq_iff_eq]; exact ⟨s, hs, hcontra⟩)
  · rintro ⟨m, hm, hall⟩
    refine ⟨m, hm, ?_⟩
    simp only [List.any_eq_true, beq_iff_eq]
    rintro ⟨s, hs, hname⟩
    exact hall s hs hname

/-- C4: a property reported by `collectProperties` is optional exactly
when it carries an explicit optional marker on at least one contributing
member of the non-nullable projection, or the projection is a union and
the property is absent from at least one union member — in particular a
property present on some but not all union members is optional even
when no occurrence carries the optional marker. -/
theorem collectProperties_optionality (t : CheckerType) (p : PropertyInfo)
    (hp : p ∈ collectProperties t) :
    p.optional = true ↔
      ((∃ m ∈ memberTypesOf t, ∃ s ∈ m, s.name = p.name ∧ s.optionalFlag = true) ∨
        (t.isUnion = true ∧ ∃ m ∈ memberTypesOf t, ∀ s ∈ m, s.name ≠ p.name)) := by
  unfold collectProperties at hp
  simp only [List.mem_map] at hp
  obtain ⟨name, hname, rfl⟩ := hp
  have hmemnames : name ∈ allPropNames (memberTypesOf t) :=
    (List.mem_insertionSort _).mp (List.mem_of_mem_take hname)
  have hoccur : ∃ m ∈ memberTypesOf t, ∃ s ∈ m, s.name = name := by
    unfold allPropNames at hmemnames
    simp only [List.mem_dedup, List.mem_map, List.mem_flatMap, id_eq] at hmemnames
    obtain ⟨s, ⟨m, hm, hs⟩, rfl⟩ := hmemnames
    exact ⟨m, hm, s, hs, rfl⟩
  simp only [Bool.or_eq_true, decide_eq_true_eq]
  cases t with
  | nonUnion props =>
    simp only [memberTypesOf, CheckerType.isUnion, Bool.false_eq_true, false_and, or_false]
      at hoccur ⊢
    have hpres : presenceCount [props] name = 1 := by
      unfold presenceCount
      rw [List.filter_cons_of_pos, List.filter_nil]
      · rfl
      · simp only [List.any_eq_true, beq_iff_eq]
        obtain ⟨m, hm, s, hs, hsname⟩ := hoccur
        simp only [List.mem_singleton] at hm
        subst hm
        exact ⟨s, hs, hsname⟩
    rw [optionalFlagFor_iff]
    simp [hpres]
  | union ms =>
    simp only [memberTypesOf, CheckerType.isUnion, true_and] at hoccur ⊢
    have hne : ms.length > 0 := by
      obtain ⟨m, hm, -⟩ := hoccur
      exact List.length_pos.mpr (List.ne_nil_of_mem hm)
    rw [optionalFlagFor_iff]
    simp only [hne, if_pos]
    rw [presenceCount_lt_iff]

/-- C4 witness: the theorem applied to the union
`{id: string} | {id: string, email: string}`, where `email` is marked
optional by union-induced partial presence alone. -/
theorem collectProperties_optionality_witness :
    (⟨"email", "string", true⟩ : PropertyInfo) ∈ collectProperties demoUnionType ∧
    (⟨"email", "string", true⟩ : PropertyInfo).optional = true ∧
    (⟨"id", "string", false⟩ : PropertyInfo) ∈ collectProperties demoUnionType := by
  refine ⟨by decide, ?_, by decide⟩
  exact (collectProperties_optionality demoUnionType ⟨"email", "string", true⟩ (by decide)).mpr
    (Or.inr (by decide))
